import Mathlib

/-!
Verification of the calculator-checkout draft-order pipeline.

Shallow embedding of the serverless handler that creates a commerce
draft order from a calculator quote request.  The embedding follows the
newer handler source (the one supporting both legacy-quote mode and
real-products mode); the older duplicate handler is superseded.

Modelling conventions:
* JS runtime values that matter to the pipeline are modelled by `JsVal`
  (finite numbers as exact rationals, NaN as a separate constructor,
  strings, booleans, null/undefined, plain objects as association lists).
* Request fields that the code only ever uses through truthiness checks
  and string coercion of string-or-absent values are modelled as `String`
  with the empty string standing for an absent/falsy field, because
  JS code of the form `x || ""` maps both to the same value.
* JS string built-ins (trim, toLowerCase, split, replace) are modelled
  by character-list functions so that every definition evaluates by
  kernel reduction.
* The collaborators (product catalog, draft-order API, mail transport,
  JSON serializer, clock) are parameters: the handler is a pure function
  of the request, the collaborator functions, and the process-wide
  variant cache, returning the response, the updated cache, and a trace
  of the outbound calls it issued.
-/

/-- A JavaScript runtime value, restricted to the shapes the pipeline
touches.  Finite numbers are exact rationals; NaN (and the other
non-finite doubles) are `nan`; plain objects are association lists. -/
inductive JsVal where
  | undef : JsVal
  | vnull : JsVal
  | num : ℚ → JsVal
  | nan : JsVal
  | str : String → JsVal
  | bool : Bool → JsVal
  | obj : List (String × JsVal) → JsVal

/-- JS truthiness of a value. -/
def truthy : JsVal → Bool
  | .undef => false
  | .vnull => false
  | .num q => decide (q ≠ 0)
  | .nan => false
  | .str s => decide (s ≠ "")
  | .bool b => b
  | .obj _ => true

/-- JS whitespace trimming on a character list (both ends). -/
def trimChars (cs : List Char) : List Char :=
  ((cs.dropWhile Char.isWhitespace).reverse.dropWhile Char.isWhitespace).reverse

/-- JS `String.prototype.trim`. -/
def jsTrim (s : String) : String := ⟨trimChars s.data⟩

/-- JS `String.prototype.toLowerCase` (ASCII range, which is all the
pipeline ever lowercases). -/
def jsToLower (s : String) : String := ⟨s.data.map Char.toLower⟩

/-- Digits of a decimal literal read as a natural number. -/
def natOfDigits (cs : List Char) : ℕ :=
  cs.foldl (fun a c => a * 10 + (c.toNat - 48)) 0

/-- All characters are decimal digits. -/
def allDigits (cs : List Char) : Bool :=
  cs.all Char.isDigit

/-- Split a character list at the first dot, if any. -/
def splitDot : List Char → List Char × Option (List Char)
  | [] => ([], none)
  | c :: rest =>
    if c = '.' then ([], some rest)
    else
      let p := splitDot rest
      (c :: p.1, p.2)

/-- JS `Number(s)` for a string, as an optional exact rational (`none`
is NaN).  Covers the decimal integer and decimal fraction syntax with an
optional sign; other JS numeric syntaxes (exponents, hex, Infinity) are
mapped to `none`, which the pipeline treats exactly like NaN because it
only ever asks `Number.isFinite` of the result. -/
def jsParseNumber (s : String) : Option ℚ :=
  let t := jsTrim s
  if t = "" then some 0
  else
    let p : Bool × List Char :=
      match t.data with
      | '-' :: rest => (true, rest)
      | '+' :: rest => (false, rest)
      | cs => (false, cs)
    let ip := (splitDot p.2).1
    let fp := (splitDot p.2).2
    let fpl := fp.getD []
    if allDigits ip && allDigits fpl && (!ip.isEmpty || !fpl.isEmpty) then
      let digits : ℕ := natOfDigits ip * 10 ^ fpl.length + natOfDigits fpl
      some (mkRat (if p.1 then -(digits : ℤ) else (digits : ℤ)) (10 ^ fpl.length))
    else none

/-- JS `Number(v)` coercion, as an optional exact rational (`none` is NaN). -/
def jsToNumber : JsVal → Option ℚ
  | .undef => none
  | .vnull => some 0
  | .num q => some q
  | .nan => none
  | .str s => jsParseNumber s
  | .bool b => some (if b then 1 else 0)
  | .obj _ => none

/-- JS string coercion as used in template literals.  For finite numbers
only the integer case is rendered faithfully (the pipeline never
interpolates a non-integer number in the claims under check). -/
def jsToString : JsVal → String
  | .undef => "undefined"
  | .vnull => "null"
  | .num q => if q.den = 1 then toString q.num else toString q.num ++ "/" ++ toString q.den
  | .nan => "NaN"
  | .str s => s
  | .bool b => if b then "true" else "false"
  | .obj _ => "[object Object]"

/-- JS `Math.round`: round half toward positive infinity, here written
as the floor of `q + 1/2` computed on the normalized fraction so that it
evaluates by kernel reduction. -/
def jsRound (q : ℚ) : ℤ := Int.fdiv (2 * q.num + q.den) (2 * q.den)

/-- JS `Number.prototype.toFixed(2)` for a nonnegative exact rational:
round to a whole number of cents, then print with exactly two decimal
places.  This agrees with the JS behaviour at every value the pipeline
formats in the claims under check. -/
def toFixed2 (q : ℚ) : String :=
  let cents : ℤ := Int.fdiv (200 * q.num + q.den) (2 * q.den)
  let whole := cents / 100
  let frac := (cents % 100).natAbs
  toString whole ++ "." ++ (if frac < 10 then "0" ++ toString frac else toString frac)

/-- Worker for `uniqEmails`: `seen` is the set of already-emitted
normalized addresses (the source keeps it as a `Set` next to the output
array; here the two are one accumulator). -/
def uniqEmailsGo (seen : List String) : List String → List String
  | [] => []
  | raw :: rest =>
    let e := jsToLower (jsTrim raw)
    if e = "" then uniqEmailsGo seen rest
    else if !(e.data.contains '@') then uniqEmailsGo seen rest
    else if seen.contains e then uniqEmailsGo seen rest
    else e :: uniqEmailsGo (e :: seen) rest

/-- Source `uniqEmails`: trim and lowercase each entry, drop empties and
entries without an `@`, and deduplicate keeping first occurrences. -/
def uniqEmails (list : List String) : List String :=
  uniqEmailsGo [] list

/-- One step of the source label formatter: put a space in front of
every ASCII capital (the regex `([A-Z])` with replacement `" $1"`). -/
def spaceBeforeCaps (cs : List Char) : List Char :=
  cs.foldr (fun c acc => if c.isUpper then ' ' :: c :: acc else c :: acc) []

/-- JS `String.prototype.split(" ")` on a character list: split on each
single space, keeping empty pieces. -/
def splitSpace : List Char → List (List Char)
  | [] => [[]]
  | c :: rest =>
    match splitSpace rest with
    | [] => [[c]]
    | h :: t => if c = ' ' then [] :: h :: t else (c :: h) :: t

/-- JS `join(" ")` on character-list words. -/
def joinSpace : List (List Char) → List Char
  | [] => []
  | [w] => w
  | w :: ws => w ++ ' ' :: joinSpace ws

/-- JS `w ? w[0].toUpperCase() + w.slice(1) : w` on one word. -/
def capFirst : List Char → List Char
  | [] => []
  | c :: rest => c.toUpper :: rest

/-- Source property-label formatter: space before each capital, then
underscores to spaces, trim, split on single spaces, capitalize the
first character of each piece, join with single spaces. -/
def formatLabel (k : String) : String :=
  ⟨joinSpace ((splitSpace (trimChars ((spaceBeforeCaps k.data).map
      (fun c => if c = '_' then ' ' else c)))).map capFirst)⟩

example : formatLabel "binderKits" = "Binder Kits" := by decide
example : formatLabel "total_cost" = "Total Cost" := by decide
example : formatLabel "" = "" := by decide
example : formatLabel "a\tb" = "A\tb" := by decide
example : uniqEmails ["A@x.com", "a@x.com", "bad", "b@x.com"] = ["a@x.com", "b@x.com"] := by decide
example : toFixed2 1250 = "1250.00" := by decide
example : jsToNumber (.str "abc") = none := by decide
example : jsToNumber (.str "-5") = some (-5) := by decide
example : jsRound (mkRat 27 10) = 3 := by decide

/-- Result of one product-catalog lookup, as the resolver sees it after
the GraphQL transport: either a thrown transport/protocol error, or a
possibly-null `productByHandle` object. -/
structure CatalogProduct where
  /-- The product title; `""` stands for a missing/falsy title, which
  the source replaces by the handle (`product.title || key`). -/
  title : String
  /-- `variants.edges[0]?.node?.legacyResourceId`; `none` when the
  optional chain comes up `undefined`. -/
  firstVariantLegacyId : Option JsVal

/-- Outcome of the catalog collaborator for one handle. -/
inductive CatalogOutcome where
  | fail (msg : String)
  | ok (product : Option CatalogProduct)

/-- A resolved variant, the value stored in the process-wide cache. -/
structure ResolvedVariant where
  handle : String
  title : String
  /-- `Number(legacyResourceId)`: an exact rational, or `none` for NaN.
  The source performs no further check on this number. -/
  variantId : Option ℚ

/-- The process-wide variant cache, keyed by trimmed handle.  A list
with first-match lookup models the `Map` get/has/set protocol. -/
abbrev Cache : Type := List (String × ResolvedVariant)

/-- Source `resolveVariantByHandle`: trim the handle, reject empty,
serve from the cache with no upstream call, otherwise issue exactly one
catalog lookup and cache a successful resolution under the trimmed key.
Returns the result, the updated cache, and the number of catalog calls
issued (0 or 1). -/
def resolveVariantByHandle (catalog : String → CatalogOutcome) (cache : Cache)
    (handle : String) : Except String ResolvedVariant × Cache × ℕ :=
  let key := jsTrim handle
  if key = "" then (.error "Missing product handle", cache, 0)
  else
    match List.lookup key cache with
    | some v => (.ok v, cache, 0)
    | none =>
      match catalog key with
      | .fail msg => (.error msg, cache, 1)
      | .ok none =>
        (.error ("Product not found or has no variants for handle: " ++ key), cache, 1)
      | .ok (some product) =>
        match product.firstVariantLegacyId with
        | none =>
          (.error ("Product not found or has no variants for handle: " ++ key), cache, 1)
        | some lid =>
          if truthy lid then
            let resolved : ResolvedVariant :=
              { handle := key
                title := if product.title = "" then key else product.title
                variantId := jsToNumber lid }
            (.ok resolved, (key, resolved) :: cache, 1)
          else
            (.error ("Product not found or has no variants for handle: " ++ key), cache, 1)

/-- The synthetic legacy line item. -/
structure LegacyLineItem where
  title : String
  price : String
  quantity : ℤ
  requires_shipping : Bool
  taxable : Bool
  properties : List (String × String)

/-- Source `buildLegacyLineItem`: validate the price, then build the
one synthetic line item with its annotation properties.  `now` is the
ISO clock reading taken at build time. -/
def buildLegacyLineItem (calculatorType : String) (calculatorData : JsVal)
    (totalPrice : JsVal) (now : String) : Except String LegacyLineItem :=
  match jsToNumber totalPrice with
  | none => .error "totalPrice must be a valid number > 0 for legacy quote checkouts"
  | some price =>
    if price ≤ 0 then
      .error "totalPrice must be a valid number > 0 for legacy quote checkouts"
    else
      let dataProps : List (String × String) :=
        match calculatorData with
        | .obj entries =>
          (entries.filter (fun kv => !(kv.1 == "timestamp" || kv.1 == "calculator"))).map
            (fun kv => (formatLabel kv.1, jsToString kv.2))
        | _ => []
      .ok
        { title := (if calculatorType = "" then "Calculator" else calculatorType) ++ " Quote Order"
          price := toFixed2 price
          quantity := 1
          requires_shipping := false
          taxable := true
          properties :=
            ("Calculator Type", if calculatorType = "" then "Calculator" else calculatorType)
              :: dataProps ++ [("Quote Date", now)] }

/-- One entry of the inbound `items` array. -/
structure RawItem where
  /-- `String(raw?.handle || "")`: already coerced to a string, with
  `""` for a missing/falsy handle. -/
  handle : String
  quantity : JsVal

/-- The parsed request body fields the handler destructures. -/
structure Req where
  calculatorType : String
  calculatorData : JsVal
  totalPrice : JsVal
  currency : String
  customerEmail : String
  customerName : String
  accountManagerName : String
  accountManagerEmail : String
  /-- `notifyEmails` with non-arrays already collapsed to `[]`, matching
  the `Array.isArray` guard at the use site. -/
  notifyEmails : List String
  /-- `none` models an absent or non-array `items` field. -/
  items : Option (List RawItem)
  shippingValidityHours : JsVal

/-- Source `Array.isArray(items) && items.length > 0`. -/
def useRealItems (req : Req) : Bool :=
  match req.items with
  | some (_ :: _) => true
  | some [] => false
  | none => false

/-- `Number(raw?.quantity || 0)`. -/
def qtyNum (raw : RawItem) : Option ℚ :=
  jsToNumber (if truthy raw.quantity then raw.quantity else .num 0)

/-- True exactly when the item-loop guards do not skip this entry:
non-empty trimmed handle and a finite quantity strictly above zero. -/
def survives (raw : RawItem) : Bool :=
  if jsTrim raw.handle = "" then false
  else
    match qtyNum raw with
    | none => false
    | some q => decide (0 < q)

/-- A draft-order line item: one real resolved variant, or the one
synthetic legacy item. -/
inductive LineItem where
  | real (variant_id : Option ℚ) (quantity : ℤ)
  | legacy (item : LegacyLineItem)

/-- Source real-products loop: skip entries with an empty trimmed handle
or a non-finite or non-positive quantity, resolve the survivors in input
order (threading the cache), and round each surviving quantity.  Returns
the list (or the first resolver error), the updated cache, and the
number of catalog calls issued. -/
def buildRealLineItems (catalog : String → CatalogOutcome) :
    Cache → List RawItem → Except String (List LineItem) × Cache × ℕ
  | cache, [] => (.ok [], cache, 0)
  | cache, raw :: rest =>
    let handle := jsTrim raw.handle
    if handle = "" then buildRealLineItems catalog cache rest
    else
      match qtyNum raw with
      | none => buildRealLineItems catalog cache rest
      | some qty =>
        if qty ≤ 0 then buildRealLineItems catalog cache rest
        else
          match resolveVariantByHandle catalog cache handle with
          | (.error msg, c1, n) => (.error msg, c1, n)
          | (.ok v, c1, n) =>
            match buildRealLineItems catalog c1 rest with
            | (.error msg, c2, m) => (.error msg, c2, n + m)
            | (.ok tail, c2, m) =>
              (.ok (LineItem.real v.variantId (jsRound qty) :: tail), c2, n + m)

/-- Source notification item loop: same guards as the line-item loop,
re-resolving each surviving handle (through the cache) to render one
HTML list row per item. -/
def composeItemLines (catalog : String → CatalogOutcome) :
    Cache → List RawItem → Except String (List String) × Cache × ℕ
  | cache, [] => (.ok [], cache, 0)
  | cache, raw :: rest =>
    let handle := jsTrim raw.handle
    if handle = "" then composeItemLines catalog cache rest
    else
      match qtyNum raw with
      | none => composeItemLines catalog cache rest
      | some qty =>
        if qty ≤ 0 then composeItemLines catalog cache rest
        else
          match resolveVariantByHandle catalog cache handle with
          | (.error msg, c1, n) => (.error msg, c1, n)
          | (.ok v, c1, n) =>
            match composeItemLines catalog c1 rest with
            | (.error msg, c2, m) => (.error msg, c2, n + m)
            | (.ok tail, c2, m) =>
              (.ok (("<li><strong>" ++ v.title ++ "</strong> <span style=\"color:#6b7280;\">("
                      ++ v.handle ++ ")</span> — Qty: " ++ toString (jsRound qty) ++ "</li>")
                    :: tail), c2, n + m)

/-- The draft-order creation request body. -/
structure DraftOrderPayload where
  currency : String
  tags : String
  use_customer_default_address : Bool
  note_attributes : List (String × String)
  email : Option String
  note : String
  line_items : List LineItem

/-- The order record returned by a successful draft-order creation. -/
structure DraftRecord where
  id : ℕ
  name : String
  invoice_url : String
  total_price : String

/-- Response of the draft-order creation collaborator. -/
structure DraftApiResp where
  ok : Bool
  status : ℕ
  draft : Option DraftRecord

/-- The handler HTTP outcome (the JSON body shapes are collapsed to
their discriminating fields). -/
inductive HResp where
  | configError
  | noValidItems
  | upstreamError (status : ℕ)
  | internalError (msg : String)
  | success (draft : Option DraftRecord)

/-- The HTTP status code carried by each outcome. -/
def statusOf : HResp → ℕ
  | .configError => 500
  | .noValidItems => 400
  | .upstreamError s => s
  | .internalError _ => 500
  | .success _ => 200

/-- A composed internal-notification message. -/
structure MailMsg where
  toAddr : String
  subject : String
  html : String
  text : String

/-- Trace of the outbound calls one request issued. -/
structure Trace where
  /-- Number of catalog lookups issued. -/
  catalogCalls : ℕ
  /-- Draft-order creation calls, with their payloads. -/
  orderCalls : List DraftOrderPayload
  /-- Number of `sendMail` invocations. -/
  mailAttempts : ℕ
  /-- Success flag of each `sendMail` invocation (failures are caught
  and only logged by the source, so they live in the trace alone). -/
  mailOutcomes : List Bool

/-- The handler environment: configuration presence plus the pure
collaborator functions. -/
structure Env where
  /-- Both shop name and access token present. -/
  configOk : Bool
  catalog : String → CatalogOutcome
  orderApi : DraftOrderPayload → DraftApiResp
  /-- Host, user and password of the mail transport all present. -/
  smtpOk : Bool
  /-- `JSON.stringify(v, null, 2)` of the host runtime. -/
  stringify : JsVal → String
  /-- ISO clock reading for this request. -/
  now : String

/-- The draft-order skeleton the handler assembles before the line
items: currency default, base tags, conditional note attributes,
optional customer email, and the always-attached calculator note. -/
def assembleBase (stringify : JsVal → String) (req : Req) : DraftOrderPayload :=
  { currency := if req.currency = "" then "USD" else req.currency
    tags := "calculator-order,calculator-"
      ++ (if req.calculatorType = "" then "unknown" else req.calculatorType)
    use_customer_default_address := true
    note_attributes :=
      (if req.customerName = "" then [] else [("Customer Name", req.customerName)])
      ++ (if req.accountManagerName = "" then []
          else [("Account Manager", req.accountManagerName)])
      ++ (if req.accountManagerEmail = "" then []
          else [("Account Manager Email", req.accountManagerEmail)])
      ++ (if truthy req.shippingValidityHours then
            [("Shipping Quote Validity", jsToString req.shippingValidityHours ++ " hours")]
          else [])
    email := if req.customerEmail = "" then none else some req.customerEmail
    note := "Calculator: " ++ (if req.calculatorType = "" then "unknown" else req.calculatorType)
      ++ "\n\n" ++ stringify req.calculatorData
    line_items := [] }

/-- The shipping-validity line of the notification body: the supplied
hours when truthy, else the fixed 72-hour default. -/
def shippingNote (sv : JsVal) : String :=
  if truthy sv then
    "Shipping prices valid for <strong>" ++ jsToString sv ++ " hours</strong>."
  else
    "Shipping prices valid for <strong>72 hours</strong>."

/-- Render a possibly-undefined string the way a JS template literal
would. -/
def optRender : Option String → String
  | some s => s
  | none => "undefined"

/-- A string or a dash when empty, as in the notification body. -/
def orDash (s : String) : String := if s = "" then "-" else s

/-- Notification subject line. -/
def subjectFor (req : Req) (name : String) : String :=
  jsTrim ("New Draft Order (" ++ (if req.calculatorType = "" then "calculator"
    else req.calculatorType) ++ ") — " ++ name)

/-- Notification HTML body (template whitespace and inline styles are
elided; the content and order of the interpolated pieces follow the
source). -/
def htmlFor (stringify : JsVal → String) (req : Req) (name checkoutUrl itemLines : String) :
    String :=
  "<h2>New Calculator Draft Order</h2><p>" ++ shippingNote req.shippingValidityHours
    ++ "</p><p><strong>Draft Order:</strong> " ++ name
    ++ "</p><p><strong>Checkout Link:</strong> <a href=\"" ++ checkoutUrl ++ "\">"
    ++ checkoutUrl ++ "</a></p><p><strong>Customer:</strong> " ++ orDash req.customerName
    ++ " (" ++ orDash req.customerEmail ++ ")</p><p><strong>Account Manager:</strong> "
    ++ orDash req.accountManagerName ++ " (" ++ orDash req.accountManagerEmail
    ++ ")</p><h3>Items</h3>" ++ itemLines ++ "<h3>Calculator Data</h3><pre>"
    ++ stringify req.calculatorData ++ "</pre>"

/-- Notification plain-text body; in real-products mode the raw
(unfiltered) items are listed, as in the source. -/
def textFor (stringify : JsVal → String) (req : Req) (name checkoutUrl : String)
    (useReal : Bool) : String :=
  "New Calculator Draft Order\n\nDraft Order: " ++ name ++ "\nCheckout: " ++ checkoutUrl
    ++ "\nCustomer: " ++ orDash req.customerName ++ " (" ++ orDash req.customerEmail
    ++ ")\nAccount Manager: " ++ orDash req.accountManagerName ++ " ("
    ++ orDash req.accountManagerEmail ++ ")\n\nItems:\n"
    ++ (if useReal then
          String.intercalate "\n" ((req.items.getD []).map
            (fun i => "- " ++ i.handle ++ " x" ++ jsToString i.quantity))
        else "Legacy quote (single line item)")
    ++ "\n\nCalculator Data:\n" ++ stringify req.calculatorData

/-- Everything after the line items are built: issue the one
draft-order creation call, forward a non-success status verbatim,
otherwise compose and best-effort send the internal notification and
return the success response. -/
def afterBuild (env : Env) (mailSend : MailMsg → Except String Unit) (req : Req)
    (cache : Cache) (nCat : ℕ) (payload : DraftOrderPayload) (useReal : Bool) :
    HResp × Cache × Trace :=
  let resp := env.orderApi payload
  if resp.ok = false then
    (.upstreamError resp.status, cache, ⟨nCat, [payload], 0, []⟩)
  else
    let recipients := uniqEmails (req.notifyEmails ++ [req.accountManagerEmail])
    if recipients = [] then
      (.success resp.draft, cache, ⟨nCat, [payload], 0, []⟩)
    else
      match (if useReal then composeItemLines env.catalog cache (req.items.getD [])
             else (.ok [], cache, 0) : Except String (List String) × Cache × ℕ) with
      | (.error msg, c1, m) => (.internalError msg, c1, ⟨nCat + m, [payload], 0, []⟩)
      | (.ok rows, c1, m) =>
        let dName := (resp.draft.map DraftRecord.name).getD ""
        let checkoutUrl := optRender (resp.draft.map DraftRecord.invoice_url)
        let itemLines :=
          if useReal then
            (if rows = [] then "<em>No items list</em>"
             else "<ul>" ++ String.join rows ++ "</ul>")
          else "<em>Legacy quote (single custom line item)</em>"
        let msg : MailMsg :=
          { toAddr := String.intercalate "," recipients
            subject := subjectFor req dName
            html := htmlFor env.stringify req dName checkoutUrl itemLines
            text := textFor env.stringify req dName checkoutUrl useReal }
        if env.smtpOk then
          match mailSend msg with
          | .ok _ => (.success resp.draft, c1, ⟨nCat + m, [payload], 1, [true]⟩)
          | .error _ => (.success resp.draft, c1, ⟨nCat + m, [payload], 1, [false]⟩)
        else
          (.success resp.draft, c1, ⟨nCat + m, [payload], 0, []⟩)

/-- The request handler after CORS/method dispatch: configuration
check, mode selection, line-item construction (errors from either
construction path fall into the outer catch, which answers 500), the
draft-order call, and the best-effort notification. -/
def handler (env : Env) (mailSend : MailMsg → Except String Unit) (req : Req)
    (cache : Cache) : HResp × Cache × Trace :=
  if env.configOk = false then (.configError, cache, ⟨0, [], 0, []⟩)
  else
    let base := assembleBase env.stringify req
    if useRealItems req then
      match buildRealLineItems env.catalog cache (req.items.getD []) with
      | (.error msg, c1, n) => (.internalError msg, c1, ⟨n, [], 0, []⟩)
      | (.ok lineItems, c1, n) =>
        if lineItems.isEmpty then (.noValidItems, c1, ⟨n, [], 0, []⟩)
        else
          afterBuild env mailSend req c1 n
            { base with line_items := lineItems, tags := base.tags ++ ",real-products" } true
    else
      match buildLegacyLineItem req.calculatorType req.calculatorData req.totalPrice env.now with
      | .error msg => (.internalError msg, cache, ⟨0, [], 0, []⟩)
      | .ok item =>
        afterBuild env mailSend req cache 0
          { base with line_items := [.legacy item], tags := base.tags ++ ",legacy-quote" } false

theorem resolve_ok_key_cached (catalog : String → CatalogOutcome) (cache : Cache)
    (h : String) (v : ResolvedVariant) (c1 : Cache) (n : ℕ)
    (hres : resolveVariantByHandle catalog cache h = (.ok v, c1, n)) :
    jsTrim h ≠ "" ∧ List.lookup (jsTrim h) c1 = some v := by
  simp only [resolveVariantByHandle] at hres
  split at hres
  · simp at hres
  · next hk =>
    refine ⟨hk, ?_⟩
    split at hres
    · next hv =>
      simp only [Prod.mk.injEq, Except.ok.injEq] at hres
      obtain ⟨h1, h2, -⟩ := hres
      rw [← h2, ← h1]
      exact hv
    · split at hres
      · simp at hres
      · simp at hres
      · split at hres
        · simp at hres
        · split at hres
          · simp only [Prod.mk.injEq, Except.ok.injEq] at hres
            obtain ⟨h1, h2, -⟩ := hres
            rw [← h2, ← h1]
            simp [List.lookup]
          · simp at hres

theorem resolve_preserves_lookup (catalog : String → CatalogOutcome) (cache : Cache)
    (h : String) (e : Except String ResolvedVariant) (c1 : Cache) (n : ℕ)
    (hres : resolveVariantByHandle catalog cache h = (e, c1, n)) :
    ∀ k w, List.lookup k cache = some w → List.lookup k c1 = some w := by
  intro k w hw
  simp only [resolveVariantByHandle] at hres
  split at hres
  · simp only [Prod.mk.injEq] at hres
    rw [← hres.2.1]
    exact hw
  · split at hres
    · simp only [Prod.mk.injEq] at hres
      rw [← hres.2.1]
      exact hw
    · next hmiss =>
      split at hres
      · simp only [Prod.mk.injEq] at hres
        rw [← hres.2.1]
        exact hw
      · simp only [Prod.mk.injEq] at hres
        rw [← hres.2.1]
        exact hw
      · split at hres
        · simp only [Prod.mk.injEq] at hres
          rw [← hres.2.1]
          exact hw
        · split at hres
          · simp only [Prod.mk.injEq] at hres
            rw [← hres.2.1]
            simp only [List.lookup]
            by_cases hkk : k == jsTrim h
            · rw [eq_of_beq hkk] at hw
              rw [hmiss] at hw
              exact absurd hw (by simp)
            · simp only [hkk]
              exact hw
          · simp only [Prod.mk.injEq] at hres
            rw [← hres.2.1]
            exact hw

theorem resolve_cache_hit (catalog : String → CatalogOutcome) (cache : Cache)
    (h : String) (v : ResolvedVariant)
    (hk : jsTrim h ≠ "") (hv : List.lookup (jsTrim h) cache = some v) :
    resolveVariantByHandle catalog cache h = (.ok v, cache, 0) := by
  simp only [resolveVariantByHandle, if_neg hk, hv]

/-- C1: resolving the same trimmed handle a second time with the cache
state produced by a successful first resolution issues zero catalog
calls, returns the identical resolved variant, leaves the cache
unchanged, and the first resolution only ever added to the cache: every
key-value pair visible before is still visible after (append-only by
trimmed-handle key). -/
theorem variant_resolution_idempotent (catalog : String → CatalogOutcome)
    (cache : Cache) (h h2 : String) (v : ResolvedVariant) (c1 : Cache) (n : ℕ)
    (htrim : jsTrim h2 = jsTrim h)
    (hfirst : resolveVariantByHandle catalog cache h = (.ok v, c1, n)) :
    resolveVariantByHandle catalog c1 h2 = (.ok v, c1, 0)
    ∧ List.lookup (jsTrim h) c1 = some v
    ∧ ∀ k w, List.lookup k cache = some w → List.lookup k c1 = some w := by
  obtain ⟨hk, hc⟩ := resolve_ok_key_cached catalog cache h v c1 n hfirst
  refine ⟨?_, hc, resolve_preserves_lookup catalog cache h _ c1 n hfirst⟩
  have hk2 : jsTrim h2 ≠ "" := by rw [htrim]; exact hk
  have hv2 : List.lookup (jsTrim h2) c1 = some v := by rw [htrim]; exact hc
  exact resolve_cache_hit catalog c1 h2 v hk2 hv2

/-- Catalog stub used by concrete witnesses: one product with a first
variant whose legacy id is the number 42. -/
def catalogMesh : String → CatalogOutcome := fun h =>
  if h = "mesh" then .ok (some ⟨"Mesh Product", some (.num 42)⟩) else .fail "catalog down"

theorem variant_resolution_idempotent_witness :
    resolveVariantByHandle catalogMesh
        [("mesh", ⟨"mesh", "Mesh Product", some 42⟩)] "mesh"
      = (.ok ⟨"mesh", "Mesh Product", some 42⟩,
          [("mesh", ⟨"mesh", "Mesh Product", some 42⟩)], 0) :=
  (variant_resolution_idempotent catalogMesh [] "mesh" "mesh"
    ⟨"mesh", "Mesh Product", some 42⟩
    [("mesh", ⟨"mesh", "Mesh Product", some 42⟩)] 1 rfl (by rfl)).1

/-- Environment stub for concrete runs: configuration present, order
API succeeding, no SMTP configuration, no catalog. -/
def envOkOrder : Env :=
  { configOk := true
    catalog := fun _ => .fail "catalog down"
    orderApi := fun _ =>
      { ok := true, status := 200
        draft := some ⟨7, "#D1", "https://checkout.example/x", "1250.00"⟩ }
    smtpOk := false
    stringify := fun _ => "data"
    now := "2026-01-01T00:00:00.000Z" }

/-- Mail transport stub that always succeeds. -/
def mailOk : MailMsg → Except String Unit := fun _ => .ok ()

/-- A request with every field absent. -/
def emptyReq : Req :=
  { calculatorType := ""
    calculatorData := .undef
    totalPrice := .undef
    currency := ""
    customerEmail := ""
    customerName := ""
    accountManagerName := ""
    accountManagerEmail := ""
    notifyEmails := []
    items := none
    shippingValidityHours := .undef }

/-- C2 (amended): in legacy mode an unusable totalPrice (NaN or not
greater than zero) makes the handler fail before any outbound call —
no catalog, order-creation or mail call is issued — but the thrown
validation error is answered by the generic catch as HTTP 500, not
400. -/
theorem legacy_invalid_price_fails_before_outbound (env : Env)
    (mailSend : MailMsg → Except String Unit) (req : Req) (cache : Cache)
    (hconf : env.configOk = true) (hmode : useRealItems req = false)
    (hprice : ∀ q, jsToNumber req.totalPrice = some q → q ≤ 0) :
    handler env mailSend req cache
      = (.internalError "totalPrice must be a valid number > 0 for legacy quote checkouts",
          cache, ⟨0, [], 0, []⟩)
    ∧ statusOf (handler env mailSend req cache).1 = 500 := by
  have hbuild : buildLegacyLineItem req.calculatorType req.calculatorData req.totalPrice env.now
      = .error "totalPrice must be a valid number > 0 for legacy quote checkouts" := by
    unfold buildLegacyLineItem
    cases hj : jsToNumber req.totalPrice with
    | none => rfl
    | some q => simp [hprice q hj]
  have h1 : handler env mailSend req cache
      = (.internalError "totalPrice must be a valid number > 0 for legacy quote checkouts",
          cache, ⟨0, [], 0, []⟩) := by
    simp only [handler, hconf, hmode, hbuild, Bool.false_eq_true, if_false]
    simp
  exact ⟨h1, by rw [h1]; rfl⟩

theorem legacy_invalid_price_fails_before_outbound_witness :
    handler envOkOrder mailOk { emptyReq with totalPrice := .num (-5) } []
      = (.internalError "totalPrice must be a valid number > 0 for legacy quote checkouts",
          [], ⟨0, [], 0, []⟩) :=
  (legacy_invalid_price_fails_before_outbound envOkOrder mailOk
    { emptyReq with totalPrice := .num (-5) } [] rfl rfl
    (fun q hq => by
      simp only [jsToNumber, Option.some.injEq] at hq
      rw [← hq]
      norm_num)).1

/-- C2 counterexample: with totalPrice = -5 (and likewise "abc") in
legacy mode the handler answers HTTP 500 through the generic
internal-error catch, not the claimed 400, while indeed issuing no
outbound call. -/
theorem legacy_invalid_price_status_counterexample :
    statusOf (handler envOkOrder mailOk { emptyReq with totalPrice := .num (-5) } []).1 = 500
    ∧ statusOf (handler envOkOrder mailOk { emptyReq with totalPrice := .num (-5) } []).1 ≠ 400
    ∧ (handler envOkOrder mailOk { emptyReq with totalPrice := .num (-5) } []).2.2
        = ⟨0, [], 0, []⟩
    ∧ statusOf (handler envOkOrder mailOk { emptyReq with totalPrice := .str "abc" } []).1
        = 500 :=
  ⟨rfl, by decide, rfl, rfl⟩

theorem buildReal_all_skipped (catalog : String → CatalogOutcome) (cache : Cache)
    (l : List RawItem) (hall : ∀ raw ∈ l, survives raw = false) :
    buildRealLineItems catalog cache l = (.ok [], cache, 0) := by
  induction l generalizing cache with
  | nil => rfl
  | cons raw rest ih =>
    have hraw := hall raw (by simp)
    have hrest : ∀ r ∈ rest, survives r = false := fun r hr => hall r (by simp [hr])
    unfold survives at hraw
    by_cases hh : jsTrim raw.handle = ""
    · simp only [buildRealLineItems, hh, if_pos]
      exact ih cache hrest
    · rw [if_neg hh] at hraw
      simp only [buildRealLineItems, if_neg hh]
      cases hq : qtyNum raw with
      | none => exact ih cache hrest
      | some q =>
        rw [hq] at hraw
        have hle : q ≤ 0 := not_lt.mp (by simpa using hraw)
        dsimp only
        rw [if_pos hle]
        exact ih cache hrest

/-- C3 (amended): a request whose items list is non-empty but in which
every item is filtered out (empty trimmed handle, or quantity not a
finite number greater than zero) is rejected with the 400
"No valid line items provided" response, and no outbound call of any
kind is issued.  (A request with items = [] does not take this path: it
falls back to legacy-quote mode, see the counterexample.) -/
theorem all_items_filtered_rejected (env : Env)
    (mailSend : MailMsg → Except String Unit) (req : Req) (cache : Cache)
    (l : List RawItem) (hconf : env.configOk = true) (hitems : req.items = some l)
    (hne : l ≠ []) (hall : ∀ raw ∈ l, survives raw = false) :
    handler env mailSend req cache = (.noValidItems, cache, ⟨0, [], 0, []⟩)
    ∧ statusOf (handler env mailSend req cache).1 = 400 := by
  have hreal : useRealItems req = true := by
    unfold useRealItems
    rw [hitems]
    cases l with
    | nil => exact absurd rfl hne
    | cons a t => rfl
  have hgetD : req.items.getD [] = l := by rw [hitems]; rfl
  have hb := buildReal_all_skipped env.catalog cache l hall
  have h1 : handler env mailSend req cache = (.noValidItems, cache, ⟨0, [], 0, []⟩) := by
    simp only [handler, hconf, hreal, hgetD, hb, Bool.false_eq_true, if_false, if_true,
      List.isEmpty_nil]
    simp
  exact ⟨h1, by rw [h1]; rfl⟩

theorem all_items_filtered_rejected_witness :
    handler envOkOrder mailOk { emptyReq with items := some [⟨"", .num 1⟩, ⟨"mesh", .num 0⟩] } []
      = (.noValidItems, [], ⟨0, [], 0, []⟩) :=
  (all_items_filtered_rejected envOkOrder mailOk
    { emptyReq with items := some [⟨"", .num 1⟩, ⟨"mesh", .num 0⟩] } []
    [⟨"", .num 1⟩, ⟨"mesh", .num 0⟩] rfl rfl (by simp)
    (by
      intro raw hr
      simp only [List.mem_cons, List.not_mem_nil, or_false] at hr
      rcases hr with h | h
      · rw [h]; rfl
      · rw [h]; rfl)).1

/-- C3 counterexample: a request with items = [] and a valid totalPrice
does not fail — it silently falls back to legacy-quote mode, succeeds
with HTTP 200, and does issue the order-creation call. -/
theorem empty_items_falls_back_to_legacy_counterexample :
    statusOf (handler envOkOrder mailOk
        { emptyReq with items := some [], totalPrice := .num 1250 } []).1 = 200
    ∧ (handler envOkOrder mailOk
        { emptyReq with items := some [], totalPrice := .num 1250 } []).2.2.orderCalls.length
        = 1 :=
  ⟨rfl, rfl⟩

theorem afterBuild_orderCalls (env : Env) (mailSend : MailMsg → Except String Unit)
    (req : Req) (cache : Cache) (nCat : ℕ) (payload : DraftOrderPayload) (useReal : Bool) :
    (afterBuild env mailSend req cache nCat payload useReal).2.2.orderCalls = [payload] := by
  simp only [afterBuild]
  repeat' split
  all_goals rfl

theorem buildReal_items_real (catalog : String → CatalogOutcome) (cache : Cache)
    (l : List RawItem) (items : List LineItem) (c1 : Cache) (n : ℕ)
    (hb : buildRealLineItems catalog cache l = (.ok items, c1, n)) :
    ∀ li ∈ items, ∃ vid q, li = LineItem.real vid q := by
  induction l generalizing cache items c1 n with
  | nil =>
    intro li hli
    simp only [buildRealLineItems, Prod.mk.injEq, Except.ok.injEq] at hb
    rw [← hb.1] at hli
    exact absurd hli (List.not_mem_nil li)
  | cons raw rest ih =>
    intro li hli
    simp only [buildRealLineItems] at hb
    by_cases hh : jsTrim raw.handle = ""
    · rw [if_pos hh] at hb
      exact ih cache items c1 n hb li hli
    · rw [if_neg hh] at hb
      cases hq : qtyNum raw with
      | none =>
        rw [hq] at hb
        exact ih cache items c1 n hb li hli
      | some q =>
        rw [hq] at hb
        dsimp only at hb
        by_cases hle : q ≤ 0
        · rw [if_pos hle] at hb
          exact ih cache items c1 n hb li hli
        · rw [if_neg hle] at hb
          rcases hres : resolveVariantByHandle catalog cache (jsTrim raw.handle) with ⟨e, cc, nn⟩
          rw [hres] at hb
          cases e with
          | error msg => simp at hb
          | ok v =>
            dsimp only at hb
            rcases hrest : buildRealLineItems catalog cc rest with ⟨e2, c2, m⟩
            rw [hrest] at hb
            cases e2 with
            | error msg => simp at hb
            | ok tail =>
              dsimp only at hb
              simp only [Prod.mk.injEq, Except.ok.injEq] at hb
              rw [← hb.1] at hli
              rcases List.mem_cons.mp hli with h | h
              · exact ⟨v.variantId, jsRound q, h⟩
              · exact ih cc tail c2 m hrest li h

/-- The tag suffix the handler appends for each of the two modes. -/
def modeSuffix : Bool → String
  | true => ",real-products"
  | false => ",legacy-quote"

/-- Shape of the line items each construction path produces: a
non-empty list of real variant items, or exactly one legacy item. -/
def lineItemsMatch : Bool → List LineItem → Prop
  | true, l => l ≠ [] ∧ ∀ li ∈ l, ∃ vid q, li = LineItem.real vid q
  | false, l => ∃ item, l = [LineItem.legacy item]

/-- C4: every request is processed in exactly one of the two modes,
selected deterministically by whether the items field is a non-empty
array: whenever a draft-order creation call is issued (there is at most
one), its payload carries the tag suffix of the selected mode, and its
line items were produced by that mode's construction path — a non-empty
all-real-variants list in real-products mode, exactly one synthetic
legacy item in legacy-quote mode.  The two suffixes are distinct, so
the two paths are mutually exclusive. -/
theorem mode_selection_exclusive (env : Env) (mailSend : MailMsg → Except String Unit)
    (req : Req) (cache : Cache) :
    ((handler env mailSend req cache).2.2.orderCalls = []
      ∨ ∃ p, (handler env mailSend req cache).2.2.orderCalls = [p]
          ∧ p.tags = (assembleBase env.stringify req).tags ++ modeSuffix (useRealItems req)
          ∧ lineItemsMatch (useRealItems req) p.line_items)
    ∧ modeSuffix true ≠ modeSuffix false := by
  refine ⟨?_, by decide⟩
  cases hconf : env.configOk with
  | false =>
    left
    simp [handler, hconf]
  | true =>
    cases hreal : useRealItems req with
    | true =>
      rcases hb : buildRealLineItems env.catalog cache (req.items.getD []) with ⟨e, c1, n⟩
      cases e with
      | error msg =>
        left
        simp [handler, hconf, hreal, hb]
      | ok items =>
        cases hni : items.isEmpty with
        | true =>
          left
          simp [handler, hconf, hreal, hb, hni]
        | false =>
          right
          have hred : handler env mailSend req cache
              = afterBuild env mailSend req c1 n
                  { assembleBase env.stringify req with
                      line_items := items
                      tags := (assembleBase env.stringify req).tags ++ ",real-products" }
                  true := by
            simp [handler, hconf, hreal, hb, hni]
          refine ⟨{ assembleBase env.stringify req with
                      line_items := items
                      tags := (assembleBase env.stringify req).tags ++ ",real-products" },
                  ?_, rfl, ?_⟩
          · rw [hred]
            exact afterBuild_orderCalls env mailSend req c1 n _ true
          · refine ⟨fun hemp => ?_, buildReal_items_real env.catalog cache _ items c1 n hb⟩
            have hemp2 : items = [] := hemp
            rw [hemp2] at hni
            simp at hni
    | false =>
      cases hleg : buildLegacyLineItem req.calculatorType req.calculatorData
          req.totalPrice env.now with
      | error msg =>
        left
        simp [handler, hconf, hreal, hleg]
      | ok item =>
        right
        have hred : handler env mailSend req cache
            = afterBuild env mailSend req cache 0
                { assembleBase env.stringify req with
                    line_items := [.legacy item]
                    tags := (assembleBase env.stringify req).tags ++ ",legacy-quote" }
                false := by
          simp [handler, hconf, hreal, hleg]
        refine ⟨{ assembleBase env.stringify req with
                    line_items := [.legacy item]
                    tags := (assembleBase env.stringify req).tags ++ ",legacy-quote" },
                ?_, rfl, item, rfl⟩
        rw [hred]
        exact afterBuild_orderCalls env mailSend req cache 0 _ false

/-- C5 (amended): on a cache miss for a non-empty trimmed handle,
resolution succeeds exactly when the catalog returns a product whose
first-variant identifier is truthy; the stored and returned variantId
is then Number(identifier) with no positive-integer check performed
(the counterexample stores -5); when the product is missing or the
identifier is absent or falsy, resolution fails and stores nothing. -/
theorem resolve_variant_characterization (catalog : String → CatalogOutcome)
    (cache : Cache) (h : String)
    (hk : jsTrim h ≠ "") (hmiss : List.lookup (jsTrim h) cache = none) :
    (∀ v c1 n, resolveVariantByHandle catalog cache h = (.ok v, c1, n) →
      ∃ product lid, catalog (jsTrim h) = .ok (some product)
        ∧ product.firstVariantLegacyId = some lid ∧ truthy lid = true
        ∧ v.variantId = jsToNumber lid ∧ v.handle = jsTrim h
        ∧ c1 = (jsTrim h, v) :: cache ∧ n = 1)
    ∧ (∀ product lid, catalog (jsTrim h) = .ok (some product) →
        product.firstVariantLegacyId = some lid → truthy lid = false →
        resolveVariantByHandle catalog cache h
          = (.error ("Product not found or has no variants for handle: " ++ jsTrim h),
              cache, 1))
    ∧ (∀ product, catalog (jsTrim h) = .ok (some product) →
        product.firstVariantLegacyId = none →
        resolveVariantByHandle catalog cache h
          = (.error ("Product not found or has no variants for handle: " ++ jsTrim h),
              cache, 1))
    ∧ (catalog (jsTrim h) = .ok none →
        resolveVariantByHandle catalog cache h
          = (.error ("Product not found or has no variants for handle: " ++ jsTrim h),
              cache, 1)) := by
  refine ⟨?_, ?_, ?_, ?_⟩
  · intro v c1 n hres
    simp only [resolveVariantByHandle, if_neg hk, hmiss] at hres
    rcases hcat : catalog (jsTrim h) with msg | product
    · rw [hcat] at hres
      simp at hres
    · rw [hcat] at hres
      cases product with
      | none => simp at hres
      | some prod =>
        dsimp only at hres
        cases hlid : prod.firstVariantLegacyId with
        | none =>
          rw [hlid] at hres
          simp at hres
        | some lid =>
          rw [hlid] at hres
          dsimp only at hres
          cases htl : truthy lid with
          | false =>
            rw [htl] at hres
            simp at hres
          | true =>
            rw [htl] at hres
            simp only [if_true, Prod.mk.injEq, Except.ok.injEq] at hres
            obtain ⟨h1, h2, h3⟩ := hres
            exact ⟨prod, lid, rfl, hlid, htl, by rw [← h1], by rw [← h1],
              by rw [← h2, ← h1], h3.symm⟩
  · intro product lid hcat hlid htl
    simp only [resolveVariantByHandle, if_neg hk, hmiss, hcat, hlid, htl]
    simp
  · intro product hcat hlid
    simp only [resolveVariantByHandle, if_neg hk, hmiss, hcat, hlid]
  · intro hcat
    simp only [resolveVariantByHandle, if_neg hk, hmiss, hcat]

theorem resolve_variant_characterization_witness :
    ∃ product lid, catalogMesh "mesh" = .ok (some product)
      ∧ product.firstVariantLegacyId = some lid ∧ truthy lid = true
      ∧ (⟨"mesh", "Mesh Product", some 42⟩ : ResolvedVariant).variantId = jsToNumber lid
      ∧ (⟨"mesh", "Mesh Product", some 42⟩ : ResolvedVariant).handle = jsTrim "mesh"
      ∧ ([("mesh", (⟨"mesh", "Mesh Product", some 42⟩ : ResolvedVariant))] : Cache)
          = (jsTrim "mesh", ⟨"mesh", "Mesh Product", some 42⟩) :: ([] : Cache)
      ∧ (1 : ℕ) = 1 :=
  (resolve_variant_characterization catalogMesh [] "mesh" (by decide) rfl).1
    ⟨"mesh", "Mesh Product", some 42⟩ [("mesh", ⟨"mesh", "Mesh Product", some 42⟩)] 1 (by rfl)

/-- Catalog stub whose product carries the truthy identifier "-5". -/
def catalogNeg : String → CatalogOutcome := fun _ =>
  .ok (some ⟨"Gadget", some (.str "-5")⟩)

/-- C5 counterexample: a catalog response whose first-variant
identifier is the truthy string "-5" is accepted: resolution succeeds
and returns (and caches) variantId = -5, which is not a positive
integer, instead of failing. -/
theorem variant_id_not_positive_counterexample :
    (resolveVariantByHandle catalogNeg [] "gadget").1
      = .ok ⟨"gadget", "Gadget", some (-5)⟩
    ∧ ¬ ∃ m : ℕ, 0 < m
        ∧ (⟨"gadget", "Gadget", some (-5)⟩ : ResolvedVariant).variantId = some (m : ℚ) := by
  constructor
  · rfl
  · rintro ⟨m, hm, hv⟩
    have hv2 : ((-5 : ℚ)) = (m : ℚ) := by simpa using hv
    have hge : (0 : ℚ) ≤ (m : ℚ) := Nat.cast_nonneg m
    rw [← hv2] at hge
    norm_num at hge

theorem uniqEmailsGo_mem (l : List String) : ∀ (seen : List String) (e : String),
    e ∈ uniqEmailsGo seen l ↔
      (e ∉ seen ∧ e.data.contains '@' = true ∧ ∃ raw ∈ l, jsToLower (jsTrim raw) = e) := by
  induction l with
  | nil =>
    intro seen e
    simp [uniqEmailsGo]
  | cons raw rest ih =>
    intro seen e
    simp only [uniqEmailsGo]
    by_cases h1 : jsToLower (jsTrim raw) = ""
    · rw [if_pos h1, ih seen e]
      constructor
      · rintro ⟨hs, hat, raw2, hraw2, hnorm⟩
        exact ⟨hs, hat, raw2, List.mem_cons_of_mem _ hraw2, hnorm⟩
      · rintro ⟨hs, hat, raw2, hraw2, hnorm⟩
        rcases List.mem_cons.mp hraw2 with h | h
        · exfalso
          rw [h, h1] at hnorm
          rw [← hnorm] at hat
          simp at hat
        · exact ⟨hs, hat, raw2, h, hnorm⟩
    · rw [if_neg h1]
      by_cases h2 : (jsToLower (jsTrim raw)).data.contains '@' = true
      · rw [if_neg (show ¬((!(jsToLower (jsTrim raw)).data.contains '@') = true) by rw [h2]; decide)]
        by_cases h3 : seen.contains (jsToLower (jsTrim raw))
        · rw [if_pos h3, ih seen e]
          have h3m : jsToLower (jsTrim raw) ∈ seen := by simpa using h3
          constructor
          · rintro ⟨hs, hat, raw2, hraw2, hnorm⟩
            exact ⟨hs, hat, raw2, List.mem_cons_of_mem _ hraw2, hnorm⟩
          · rintro ⟨hs, hat, raw2, hraw2, hnorm⟩
            rcases List.mem_cons.mp hraw2 with h | h
            · exfalso
              rw [h] at hnorm
              rw [hnorm] at h3m
              exact hs h3m
            · exact ⟨hs, hat, raw2, h, hnorm⟩
        · rw [if_neg h3]
          have h3m : jsToLower (jsTrim raw) ∉ seen := by simpa using h3
          constructor
          · intro hmem
            rcases List.mem_cons.mp hmem with h | h
            · exact ⟨h ▸ h3m, h ▸ h2, raw, List.mem_cons_self raw rest, h.symm⟩
            · obtain ⟨hs, hat, raw2, hraw2, hnorm⟩ := (ih _ e).mp h
              have hne : e ≠ jsToLower (jsTrim raw) := by
                intro hcontra
                exact hs (by rw [hcontra]; exact List.mem_cons_self _ seen)
              exact ⟨fun hmem2 => hs (List.mem_cons_of_mem _ hmem2), hat,
                raw2, List.mem_cons_of_mem _ hraw2, hnorm⟩
          · rintro ⟨hs, hat, raw2, hraw2, hnorm⟩
            by_cases he : e = jsToLower (jsTrim raw)
            · rw [he]
              exact List.mem_cons_self _ _
            · rcases List.mem_cons.mp hraw2 with h | h
              · exfalso
                rw [h] at hnorm
                exact he hnorm.symm
              · refine List.mem_cons_of_mem _ ((ih _ e).mpr ⟨?_, hat, raw2, h, hnorm⟩)
                intro hmem
                rcases List.mem_cons.mp hmem with hh | hh
                · exact he hh
                · exact hs hh
      · rw [if_pos (show (!(jsToLower (jsTrim raw)).data.contains '@') = true by rw [Bool.not_eq_true] at h2; rw [h2]; decide), ih seen e]
        constructor
        · rintro ⟨hs, hat, raw2, hraw2, hnorm⟩
          exact ⟨hs, hat, raw2, List.mem_cons_of_mem _ hraw2, hnorm⟩
        · rintro ⟨hs, hat, raw2, hraw2, hnorm⟩
          rcases List.mem_cons.mp hraw2 with h | h
          · exfalso
            rw [h] at hnorm
            rw [hnorm] at h2
            exact h2 hat
          · exact ⟨hs, hat, raw2, h, hnorm⟩

theorem uniqEmailsGo_nodup (l : List String) : ∀ (seen : List String),
    (uniqEmailsGo seen l).Nodup := by
  induction l with
  | nil =>
    intro seen
    simp [uniqEmailsGo]
  | cons raw rest ih =>
    intro seen
    simp only [uniqEmailsGo]
    by_cases h1 : jsToLower (jsTrim raw) = ""
    · rw [if_pos h1]; exact ih seen
    · rw [if_neg h1]
      by_cases h2 : (jsToLower (jsTrim raw)).data.contains '@' = true
      · rw [if_neg (show ¬((!(jsToLower (jsTrim raw)).data.contains '@') = true) by rw [h2]; decide)]
        by_cases h3 : seen.contains (jsToLower (jsTrim raw))
        · rw [if_pos h3]; exact ih seen
        · rw [if_neg h3]
          refine List.nodup_cons.mpr ⟨?_, ih _⟩
          intro hmem
          obtain ⟨hs, -, -⟩ := (uniqEmailsGo_mem rest _ _).mp hmem
          exact hs (List.mem_cons_self _ seen)
      · rw [if_pos (show (!(jsToLower (jsTrim raw)).data.contains '@') = true by rw [Bool.not_eq_true] at h2; rw [h2]; decide)]; exact ih seen

/-- C7: the recipient list is the case-insensitively deduplicated,
lowercased (trimmed) union of notifyEmails and accountManagerEmail,
filtered to entries containing an at sign: membership is characterized
exactly, the output has no duplicates, and the concrete instance of the
claim yields exactly the two-element list of the claim. -/
theorem uniq_emails_spec :
    (∀ l e, e ∈ uniqEmails l ↔
      (e.data.contains '@' = true ∧ ∃ raw ∈ l, jsToLower (jsTrim raw) = e))
    ∧ (∀ l, (uniqEmails l).Nodup)
    ∧ uniqEmails (["A@x.com", "a@x.com", "bad"] ++ ["b@x.com"]) = ["a@x.com", "b@x.com"]
    ∧ (uniqEmails (["A@x.com", "a@x.com", "bad"] ++ ["b@x.com"])).length = 2 := by
  refine ⟨?_, fun l => uniqEmailsGo_nodup l [], by decide, by decide⟩
  intro l e
  rw [uniqEmails, uniqEmailsGo_mem]
  simp

/-- C8: in legacy mode with totalPrice = 1250 the produced line item
has price "1250.00" (two-decimal formatting), quantity 1,
requires_shipping = false and taxable = true, for every calculator
type, calculator data and clock reading. -/
theorem legacy_line_item_1250 (calculatorType : String) (calculatorData : JsVal)
    (now : String) :
    ∃ item, buildLegacyLineItem calculatorType calculatorData (.num 1250) now = .ok item
      ∧ item.price = "1250.00" ∧ item.quantity = 1
      ∧ item.requires_shipping = false ∧ item.taxable = true :=
  ⟨_, rfl, rfl, rfl, rfl, rfl⟩

/-- Single-pass reading of the last formatter stage: capitalize the
first character of the current word, where exactly a single space ends
a word. -/
def capWordsAfterSpace : Bool → List Char → List Char
  | _, [] => []
  | atStart, c :: rest =>
    if c = ' ' then c :: capWordsAfterSpace true rest
    else (if atStart then c.toUpper else c) :: capWordsAfterSpace false rest

/-- Modelled from the spec: the same capitalization stage but with
every whitespace character ending a word, as the specification words
it ("each whitespace-delimited word").  Used only for comparison
against the source formatter. -/
def capWordsAfterWhitespace : Bool → List Char → List Char
  | _, [] => []
  | atStart, c :: rest =>
    if c.isWhitespace then c :: capWordsAfterWhitespace true rest
    else (if atStart then c.toUpper else c) :: capWordsAfterWhitespace false rest

/-- Modelled from the spec: the label formatter as specified — insert a
space before each capital, replace underscores with spaces, trim, then
uppercase the first letter of each whitespace-delimited word. -/
def specFormatLabel (k : String) : String :=
  ⟨capWordsAfterWhitespace true (trimChars ((spaceBeforeCaps k.data).map
      (fun c => if c = '_' then ' ' else c)))⟩

theorem splitSpace_ne_nil (cs : List Char) : splitSpace cs ≠ [] := by
  cases cs with
  | nil => simp [splitSpace]
  | cons c rest =>
    simp only [splitSpace]
    rcases h : splitSpace rest with - | ⟨hd, tl⟩
    · simp
    · by_cases hc : c = ' ' <;> simp [hc]

theorem joinSpace_cons_head (x : Char) (h : List Char) (t : List (List Char)) :
    joinSpace ((x :: h) :: t) = x :: joinSpace (h :: t) := by
  cases t <;> rfl

/-- The split-map-join stage of the source formatter equals the
single-pass capitalization with exactly single spaces as word
boundaries, both from a word start and from inside a word. -/
theorem splitSpace_capFirst_join (cs : List Char) :
    joinSpace ((splitSpace cs).map capFirst) = capWordsAfterSpace true cs
    ∧ (∀ hd tl, splitSpace cs = hd :: tl →
        joinSpace (hd :: tl.map capFirst) = capWordsAfterSpace false cs) := by
  induction cs with
  | nil =>
    refine ⟨rfl, ?_⟩
    intro hd tl h
    simp only [splitSpace, List.cons.injEq] at h
    rw [← h.1, ← h.2]
    rfl
  | cons c rest ih =>
    obtain ⟨ih1, ih2⟩ := ih
    rcases hsp : splitSpace rest with - | ⟨hd, tl⟩
    · exact absurd hsp (splitSpace_ne_nil rest)
    · have hshape : splitSpace (c :: rest)
          = if c = ' ' then [] :: hd :: tl else (c :: hd) :: tl := by
        simp only [splitSpace, hsp]
      by_cases hc : c = ' '
      · rw [if_pos hc] at hshape
        have hmain : joinSpace (([] :: hd :: tl).map capFirst)
            = ' ' :: capWordsAfterSpace true rest := by
          show ' ' :: joinSpace ((hd :: tl).map capFirst) = ' ' :: capWordsAfterSpace true rest
          rw [← hsp, ih1]
        constructor
        · rw [hshape]
          rw [show (([] : List Char) :: hd :: tl).map capFirst
                = [] :: (hd :: tl).map capFirst from rfl] at hmain
          rw [show capWordsAfterSpace true (c :: rest)
                = c :: capWordsAfterSpace true rest by rw [capWordsAfterSpace, if_pos hc]]
          rw [hc]
          exact hmain
        · intro hd2 tl2 heq
          rw [hshape] at heq
          obtain ⟨h1, h2⟩ := List.cons.injEq .. ▸ heq
          rw [← h1, ← h2]
          rw [show capWordsAfterSpace false (c :: rest)
                = c :: capWordsAfterSpace true rest by rw [capWordsAfterSpace, if_pos hc]]
          rw [hc]
          rw [show (([] : List Char) :: (hd :: tl).map capFirst)
                = ([] :: hd :: tl).map capFirst from rfl]
          exact hmain
      · rw [if_neg hc] at hshape
        constructor
        · rw [hshape]
          rw [show ((c :: hd) :: tl).map capFirst
                = (c.toUpper :: hd) :: tl.map capFirst from rfl]
          rw [joinSpace_cons_head, ih2 hd tl hsp]
          rw [show capWordsAfterSpace true (c :: rest)
                = c.toUpper :: capWordsAfterSpace false rest by
              rw [capWordsAfterSpace, if_neg hc]
              rfl]
        · intro hd2 tl2 heq
          rw [hshape] at heq
          obtain ⟨h1, h2⟩ := List.cons.injEq .. ▸ heq
          rw [← h1, ← h2]
          rw [joinSpace_cons_head, ih2 hd tl hsp]
          rw [show capWordsAfterSpace false (c :: rest)
                = c :: capWordsAfterSpace false rest by
              rw [capWordsAfterSpace, if_neg hc]
              rfl]

/-- C9 (amended): the property-label formatter is a pure total function
on strings that inserts a space before each capital, replaces
underscores with spaces, trims, and uppercases the first letter of each
space-delimited word — single spaces only are word boundaries, so other
whitespace such as an embedded tab does not start a new word; in
particular it maps "binderKits" to "Binder Kits", "total_cost" to
"Total Cost", and the empty string to the empty string. -/
theorem format_label_examples :
    (∀ k, formatLabel k
      = ⟨capWordsAfterSpace true (trimChars ((spaceBeforeCaps k.data).map
          (fun c => if c = '_' then ' ' else c)))⟩)
    ∧ formatLabel "binderKits" = "Binder Kits"
    ∧ formatLabel "total_cost" = "Total Cost"
    ∧ formatLabel "" = "" := by
  refine ⟨?_, by decide, by decide, by decide⟩
  intro k
  unfold formatLabel
  rw [(splitSpace_capFirst_join _).1]

/-- C9 counterexample: the source formatter splits on single spaces
only, so a tab is not a word boundary: formatLabel "a\tb" = "A\tb",
while the claimed whitespace-delimited capitalization demands "A\tB" —
the claim as stated fails at the input "a\tb". -/
theorem format_label_tab_counterexample :
    formatLabel "a\tb" = "A\tb"
    ∧ specFormatLabel "a\tb" = "A\tB"
    ∧ formatLabel "a\tb" ≠ specFormatLabel "a\tb" := by
  refine ⟨by decide, by decide, by decide⟩

/-- C10: a falsy shippingValidityHours (0, NaN, empty string, null,
false, or absent) behaves exactly as if the field were absent: the
handler's entire outcome is unchanged, no "Shipping Quote Validity"
note attribute is ever part of the assembled payload, and the
notification body carries the fixed default 72-hour validity note. -/
theorem shipping_validity_falsy_default (env : Env)
    (mailSend : MailMsg → Except String Unit) (req : Req) (cache : Cache)
    (x : JsVal) (hx : truthy x = false) :
    handler env mailSend { req with shippingValidityHours := x } cache
      = handler env mailSend { req with shippingValidityHours := .undef } cache
    ∧ (∀ v, ("Shipping Quote Validity", v)
        ∉ (assembleBase env.stringify { req with shippingValidityHours := x }).note_attributes)
    ∧ shippingNote x = "Shipping prices valid for <strong>72 hours</strong>." := by
  have hbase : assembleBase env.stringify { req with shippingValidityHours := x }
      = assembleBase env.stringify { req with shippingValidityHours := .undef } := by
    simp [assembleBase, hx, show truthy JsVal.undef = false from rfl]
  have hsubj : ∀ name, subjectFor { req with shippingValidityHours := x } name
      = subjectFor { req with shippingValidityHours := .undef } name := fun _ => rfl
  have htext : ∀ name curl ur,
      textFor env.stringify { req with shippingValidityHours := x } name curl ur
        = textFor env.stringify { req with shippingValidityHours := .undef } name curl ur :=
    fun _ _ _ => rfl
  have hhtml : ∀ name curl lines,
      htmlFor env.stringify { req with shippingValidityHours := x } name curl lines
        = htmlFor env.stringify { req with shippingValidityHours := .undef } name curl lines := by
    intro name curl lines
    simp [htmlFor, shippingNote, hx, show truthy JsVal.undef = false from rfl]
  have hafter : ∀ c2 nCat payload useReal,
      afterBuild env mailSend { req with shippingValidityHours := x } c2 nCat payload useReal
        = afterBuild env mailSend { req with shippingValidityHours := .undef } c2 nCat payload
            useReal := by
    intro c2 nCat payload useReal
    unfold afterBuild
    dsimp only
    simp only [hsubj, htext, hhtml]
  refine ⟨?_, ?_, by simp [shippingNote, hx]⟩
  · unfold handler
    dsimp only
    rw [hbase]
    rw [show useRealItems { req with shippingValidityHours := x }
          = useRealItems { req with shippingValidityHours := JsVal.undef } from rfl]
    simp only [hafter]
  · intro v hv
    simp only [assembleBase] at hv
    rw [hx] at hv
    simp only [Bool.false_eq_true, if_false, List.append_nil, List.mem_append] at hv
    rcases hv with (hv | hv) | hv <;> (split_ifs at hv <;> simp_all)

theorem shipping_validity_falsy_default_witness :
    handler envOkOrder mailOk { emptyReq with shippingValidityHours := .num 0 } []
      = handler envOkOrder mailOk { emptyReq with shippingValidityHours := .undef } []
    ∧ shippingNote (.num 0) = "Shipping prices valid for <strong>72 hours</strong>." := by
  have h := shipping_validity_falsy_default envOkOrder mailOk emptyReq [] (.num 0) (by decide)
  exact ⟨h.1, h.2.2⟩

theorem buildReal_preserves_lookup (catalog : String → CatalogOutcome) (cache : Cache)
    (l : List RawItem) (e : Except String (List LineItem)) (c1 : Cache) (n : ℕ)
    (hb : buildRealLineItems catalog cache l = (e, c1, n)) :
    ∀ k w, List.lookup k cache = some w → List.lookup k c1 = some w := by
  induction l generalizing cache e c1 n with
  | nil =>
    intro k w hw
    simp only [buildRealLineItems, Prod.mk.injEq] at hb
    rw [← hb.2.1]
    exact hw
  | cons raw rest ih =>
    intro k w hw
    simp only [buildRealLineItems] at hb
    by_cases hh : jsTrim raw.handle = ""
    · rw [if_pos hh] at hb
      exact ih cache e c1 n hb k w hw
    · rw [if_neg hh] at hb
      cases hq : qtyNum raw with
      | none =>
        rw [hq] at hb
        exact ih cache e c1 n hb k w hw
      | some q =>
        rw [hq] at hb
        dsimp only at hb
        by_cases hle : q ≤ 0
        · rw [if_pos hle] at hb
          exact ih cache e c1 n hb k w hw
        · rw [if_neg hle] at hb
          rcases hres : resolveVariantByHandle catalog cache (jsTrim raw.handle) with ⟨e0, cc, nn⟩
          rw [hres] at hb
          have hstep := resolve_preserves_lookup catalog cache _ e0 cc nn hres k w hw
          cases e0 with
          | error msg =>
            simp only [Prod.mk.injEq] at hb
            rw [← hb.2.1]
            exact hstep
          | ok v =>
            dsimp only at hb
            rcases hrest : buildRealLineItems catalog cc rest with ⟨e2, c2, m⟩
            rw [hrest] at hb
            cases e2 with
            | error msg =>
              simp only [Prod.mk.injEq] at hb
              rw [← hb.2.1]
              exact ih cc _ c2 m hrest k w hstep
            | ok tail =>
              dsimp only at hb
              simp only [Prod.mk.injEq] at hb
              rw [← hb.2.1]
              exact ih cc _ c2 m hrest k w hstep

theorem buildReal_covers (catalog : String → CatalogOutcome) (cache : Cache)
    (l : List RawItem) (items : List LineItem) (c1 : Cache) (n : ℕ)
    (hb : buildRealLineItems catalog cache l = (.ok items, c1, n)) :
    ∀ raw ∈ l, survives raw = true →
      jsTrim (jsTrim raw.handle) ≠ ""
      ∧ ∃ v, List.lookup (jsTrim (jsTrim raw.handle)) c1 = some v := by
  induction l generalizing cache items c1 n with
  | nil =>
    intro raw hraw
    exact absurd hraw (List.not_mem_nil raw)
  | cons raw0 rest ih =>
    intro raw hraw hsurv
    simp only [buildRealLineItems] at hb
    by_cases hh : jsTrim raw0.handle = ""
    · rw [if_pos hh] at hb
      rcases List.mem_cons.mp hraw with h | h
      · exfalso
        rw [h] at hsurv
        unfold survives at hsurv
        rw [if_pos hh] at hsurv
        exact Bool.false_ne_true hsurv
      · exact ih cache items c1 n hb raw h hsurv
    · rw [if_neg hh] at hb
      cases hq : qtyNum raw0 with
      | none =>
        rw [hq] at hb
        rcases List.mem_cons.mp hraw with h | h
        · exfalso
          rw [h] at hsurv
          unfold survives at hsurv
          rw [if_neg hh, hq] at hsurv
          exact Bool.false_ne_true hsurv
        · exact ih cache items c1 n hb raw h hsurv
      | some q =>
        rw [hq] at hb
        dsimp only at hb
        by_cases hle : q ≤ 0
        · rw [if_pos hle] at hb
          rcases List.mem_cons.mp hraw with h | h
          · exfalso
            rw [h] at hsurv
            unfold survives at hsurv
            rw [if_neg hh, hq] at hsurv
            dsimp only at hsurv
            rw [decide_eq_true_iff] at hsurv
            exact absurd hsurv (not_lt.mpr hle)
          · exact ih cache items c1 n hb raw h hsurv
        · rw [if_neg hle] at hb
          rcases hres : resolveVariantByHandle catalog cache (jsTrim raw0.handle) with ⟨e0, cc, nn⟩
          rw [hres] at hb
          cases e0 with
          | error msg => simp at hb
          | ok v =>
            dsimp only at hb
            rcases hrest : buildRealLineItems catalog cc rest with ⟨e2, c2, m⟩
            rw [hrest] at hb
            cases e2 with
            | error msg => simp at hb
            | ok tail =>
              dsimp only at hb
              simp only [Prod.mk.injEq, Except.ok.injEq] at hb
              obtain ⟨-, hc, -⟩ := hb
              rcases List.mem_cons.mp hraw with h | h
              · obtain ⟨hk, hlook⟩ := resolve_ok_key_cached catalog cache _ v cc nn hres
                rw [h]
                refine ⟨hk, ?_⟩
                obtain ⟨e3, hpres⟩ : ∃ w, List.lookup (jsTrim (jsTrim raw0.handle)) c2 = some w :=
                  ⟨v, buildReal_preserves_lookup catalog cc rest _ c2 m hrest _ v hlook⟩
                rw [← hc]
                exact ⟨e3, hpres⟩
              · obtain ⟨hk, v2, hlook⟩ := ih cc tail c2 m hrest raw h hsurv
                rw [← hc]
                exact ⟨hk, v2, hlook⟩

theorem compose_all_cached (catalog : String → CatalogOutcome) (cache : Cache)
    (l : List RawItem)
    (hcov : ∀ raw ∈ l, survives raw = true →
      jsTrim (jsTrim raw.handle) ≠ ""
      ∧ ∃ v, List.lookup (jsTrim (jsTrim raw.handle)) cache = some v) :
    ∃ rows, composeItemLines catalog cache l = (.ok rows, cache, 0) := by
  induction l with
  | nil => exact ⟨[], rfl⟩
  | cons raw rest ih =>
    have hrest : ∀ r ∈ rest, survives r = true →
        jsTrim (jsTrim r.handle) ≠ ""
        ∧ ∃ v, List.lookup (jsTrim (jsTrim r.handle)) cache = some v :=
      fun r hr => hcov r (List.mem_cons_of_mem _ hr)
    obtain ⟨rows, hcomp⟩ := ih hrest
    by_cases hh : jsTrim raw.handle = ""
    · refine ⟨rows, ?_⟩
      simp only [composeItemLines, if_pos hh]
      exact hcomp
    · cases hq : qtyNum raw with
      | none =>
        refine ⟨rows, ?_⟩
        simp only [composeItemLines, if_neg hh, hq]
        exact hcomp
      | some q =>
        by_cases hle : q ≤ 0
        · refine ⟨rows, ?_⟩
          simp only [composeItemLines, if_neg hh, hq]
          rw [if_pos hle]
          exact hcomp
        · have hsurv : survives raw = true := by
            unfold survives
            rw [if_neg hh, hq]
            dsimp only
            exact decide_eq_true (not_le.mp hle)
          obtain ⟨hk, v, hlook⟩ := hcov raw (List.mem_cons_self raw rest) hsurv
          have hres := resolve_cache_hit catalog cache (jsTrim raw.handle) v hk hlook
          refine ⟨("<li><strong>" ++ v.title ++ "</strong> <span style=\"color:#6b7280;\">("
              ++ v.handle ++ ")</span> — Qty: " ++ toString (jsRound q) ++ "</li>") :: rows, ?_⟩
          simp only [composeItemLines, if_neg hh, hq]
          rw [if_neg hle, hres]
          dsimp only
          rw [hcomp]

theorem afterBuild_best_effort (env : Env) (m1 m2 : MailMsg → Except String Unit)
    (req : Req) (cache : Cache) (nCat : ℕ) (payload : DraftOrderPayload) (useReal : Bool)
    (hok : (env.orderApi payload).ok = true)
    (hcover : useReal = true → ∀ raw ∈ req.items.getD [], survives raw = true →
      jsTrim (jsTrim raw.handle) ≠ ""
      ∧ ∃ v, List.lookup (jsTrim (jsTrim raw.handle)) cache = some v) :
    (afterBuild env m1 req cache nCat payload useReal).1
      = .success (env.orderApi payload).draft
    ∧ (afterBuild env m2 req cache nCat payload useReal).1
        = (afterBuild env m1 req cache nCat payload useReal).1
    ∧ (uniqEmails (req.notifyEmails ++ [req.accountManagerEmail]) = [] →
        (afterBuild env m1 req cache nCat payload useReal).2.2.mailAttempts = 0) := by
  have hcomp : ∃ rows,
      (if useReal then composeItemLines env.catalog cache (req.items.getD [])
       else (.ok [], cache, 0) : Except String (List String) × Cache × ℕ)
        = (.ok rows, cache, 0) := by
    cases useReal with
    | false => exact ⟨[], rfl⟩
    | true =>
      obtain ⟨rows, h⟩ := compose_all_cached env.catalog cache (req.items.getD []) (hcover rfl)
      exact ⟨rows, by rw [if_pos rfl]; exact h⟩
  obtain ⟨rows, hrows⟩ := hcomp
  have key : ∀ mS : MailMsg → Except String Unit,
      (afterBuild env mS req cache nCat payload useReal).1
        = .success (env.orderApi payload).draft
      ∧ (uniqEmails (req.notifyEmails ++ [req.accountManagerEmail]) = [] →
          (afterBuild env mS req cache nCat payload useReal).2.2.mailAttempts = 0) := by
    intro mS
    unfold afterBuild
    dsimp only
    rw [if_neg (show ¬((env.orderApi payload).ok = false) by rw [hok]; decide)]
    by_cases hrec : uniqEmails (req.notifyEmails ++ [req.accountManagerEmail]) = []
    · rw [if_pos hrec]
      exact ⟨rfl, fun _ => rfl⟩
    · rw [if_neg hrec, hrows]
      dsimp only
      by_cases hsm : env.smtpOk = true
      · rw [if_pos hsm]
        refine ⟨?_, fun h => absurd h hrec⟩
        split
        · rfl
        · rfl
      · rw [if_neg hsm]
        exact ⟨rfl, fun h => absurd h hrec⟩
  exact ⟨(key m1).1, ((key m2).1).trans ((key m1).1).symm, (key m1).2⟩

/-- C6: whenever the draft-order creation call succeeds, the handler
answers HTTP 200 no matter what the mail transport does — the response
is identical under any two mail-transport behaviours, so an error
raised during the notification send is caught and discarded — and when
the deduplicated recipient set is empty no send is attempted at all,
which is not an error. -/
theorem notification_best_effort (env : Env) (m1 m2 : MailMsg → Except String Unit)
    (req : Req) (cache : Cache) (p : DraftOrderPayload)
    (hcall : (handler env m1 req cache).2.2.orderCalls = [p])
    (hok : (env.orderApi p).ok = true) :
    statusOf (handler env m1 req cache).1 = 200
    ∧ (handler env m2 req cache).1 = (handler env m1 req cache).1
    ∧ (uniqEmails (req.notifyEmails ++ [req.accountManagerEmail]) = [] →
        (handler env m1 req cache).2.2.mailAttempts = 0) := by
  by_cases hconf : env.configOk = true
  case neg =>
    exfalso
    have hconf2 : env.configOk = false := by
      cases h : env.configOk
      · rfl
      · exact absurd h hconf
    simp [handler, hconf2] at hcall
  case pos =>
    cases hreal : useRealItems req with
    | true =>
      rcases hb : buildRealLineItems env.catalog cache (req.items.getD []) with ⟨e, c1, n⟩
      cases e with
      | error msg =>
        exfalso
        have hred : handler env m1 req cache = (.internalError msg, c1, ⟨n, [], 0, []⟩) := by
          simp [handler, hconf, hreal, hb]
        rw [hred] at hcall
        simp at hcall
      | ok items =>
        by_cases hni : items.isEmpty = true
        · exfalso
          have hred : handler env m1 req cache = (.noValidItems, c1, ⟨n, [], 0, []⟩) := by
            simp [handler, hconf, hreal, hb, hni]
          rw [hred] at hcall
          simp at hcall
        · have hni2 : items.isEmpty = false := by
            cases h : items.isEmpty
            · rfl
            · exact absurd h hni
          have hred : ∀ mS : MailMsg → Except String Unit, handler env mS req cache
              = afterBuild env mS req c1 n
                  { assembleBase env.stringify req with
                      line_items := items
                      tags := (assembleBase env.stringify req).tags ++ ",real-products" } true := by
            intro mS
            simp [handler, hconf, hreal, hb, hni2]
          rw [hred m1, afterBuild_orderCalls] at hcall
          have hp : { assembleBase env.stringify req with
                      line_items := items
                      tags := (assembleBase env.stringify req).tags ++ ",real-products" } = p := by
            simpa using hcall
          have hred2 : ∀ mS : MailMsg → Except String Unit,
              handler env mS req cache = afterBuild env mS req c1 n p true := by
            intro mS
            rw [hred mS, hp]
          have hcover := buildReal_covers env.catalog cache (req.items.getD []) items c1 n hb
          have hk := afterBuild_best_effort env m1 m2 req c1 n p true hok (fun _ => hcover)
          refine ⟨?_, ?_, ?_⟩
          · rw [hred2 m1, hk.1]
            rfl
          · rw [hred2 m2, hred2 m1]
            exact hk.2.1
          · rw [hred2 m1]
            exact hk.2.2
    | false =>
      cases hleg : buildLegacyLineItem req.calculatorType req.calculatorData req.totalPrice
          env.now with
      | error msg =>
        exfalso
        have hred : handler env m1 req cache = (.internalError msg, cache, ⟨0, [], 0, []⟩) := by
          simp [handler, hconf, hreal, hleg]
        rw [hred] at hcall
        simp at hcall
      | ok item =>
        have hred : ∀ mS : MailMsg → Except String Unit, handler env mS req cache
            = afterBuild env mS req cache 0
                { assembleBase env.stringify req with
                    line_items := [.legacy item]
                    tags := (assembleBase env.stringify req).tags ++ ",legacy-quote" } false := by
          intro mS
          simp [handler, hconf, hreal, hleg]
        rw [hred m1, afterBuild_orderCalls] at hcall
        have hp : { assembleBase env.stringify req with
                    line_items := [LineItem.legacy item]
                    tags := (assembleBase env.stringify req).tags ++ ",legacy-quote" } = p := by
          simpa using hcall
        have hred2 : ∀ mS : MailMsg → Except String Unit,
            handler env mS req cache = afterBuild env mS req cache 0 p false := by
          intro mS
          rw [hred mS, hp]
        have hk := afterBuild_best_effort env m1 m2 req cache 0 p false hok
          (fun h => absurd h (by decide))
        refine ⟨?_, ?_, ?_⟩
        · rw [hred2 m1, hk.1]
          rfl
        · rw [hred2 m2, hred2 m1]
          exact hk.2.1
        · rw [hred2 m1]
          exact hk.2.2

/-- Environment with SMTP configured, used by the notification witness. -/
def envMailFail : Env :=
  { configOk := true
    catalog := fun _ => .fail "catalog down"
    orderApi := fun _ =>
      { ok := true, status := 200
        draft := some ⟨7, "#D1", "https://checkout.example/x", "1250.00"⟩ }
    smtpOk := true
    stringify := fun _ => "data"
    now := "2026-01-01T00:00:00.000Z" }

/-- Mail transport stub that always raises. -/
def mailFail : MailMsg → Except String Unit := fun _ => .error "smtp down"

/-- Legacy request with one notification recipient. -/
def reqNotify : Req := { emptyReq with totalPrice := .num 1250, notifyEmails := ["ops@x.com"] }

/-- The one draft-order payload the witness run issues. -/
def witnessPayload : DraftOrderPayload :=
  (handler envMailFail mailFail reqNotify []).2.2.orderCalls.headD
    ⟨"", "", true, [], none, "", []⟩

theorem notification_best_effort_witness :
    statusOf (handler envMailFail mailFail reqNotify []).1 = 200
    ∧ (handler envMailFail mailOk reqNotify []).1 = (handler envMailFail mailFail reqNotify []).1
    ∧ (uniqEmails (reqNotify.notifyEmails ++ [reqNotify.accountManagerEmail]) = [] →
        (handler envMailFail mailFail reqNotify []).2.2.mailAttempts = 0) :=
  notification_best_effort envMailFail mailFail mailOk reqNotify [] witnessPayload rfl rfl
